import Mathlib

/-!
Shallow embedding of the screenshot-extraction core of `src/streamlit_app.py`.

The embedding follows the Python source line by line:

* `cv2.VideoCapture` is modelled by `Video`: the two `cap.get(...)` properties
  are rationals (idealising the C doubles), and `read` gives the outcome of
  `cap.set(CAP_PROP_POS_FRAMES, i); cap.read()` — `some frame` when the read
  succeeds (`ret == True`) and `none` when it fails.  A capture that failed to
  open reports `0` for both properties and fails every read, which is exactly
  OpenCV's behaviour for an unopened capture.
* `int(x)` on a non-negative value is `pyInt`, truncation toward zero.
* `timestamps.sort()` sorts the list of pairs in place in Python's tuple
  order, i.e. lexicographically; `pySort` is that sort, and the post-call
  state of the caller's list is recorded in `ExtractOutcome.requestsAfter`.
* `duration = total_frames / fps` is Python true division, `ℚ` here; when
  `fps = 0` Python raises `ZeroDivisionError`, modelled by the `Except` value
  `PyErr.zeroDivision` in `ExtractOutcome.result`.
* the per-timestamp loop body is `runLoop`; a `st.warning` emitted on a skip
  is recorded as a `Skipped` entry (the diagnostic output of the function),
  and a successful read appends a `Screenshot` whose `path` is
  `os.path.join(temp_dir, f"screenshot_{minutes}m_{seconds}s.jpg")`.
* `cap.release()` runs only when control reaches the end of the function;
  `ExtractOutcome.released` records whether it ran on the path taken.
* `create_zip_file` writes each path under `os.path.basename` of the path,
  in the order of the input list; the model returns the list of entry names.
-/

namespace VideoShot

/-- Truncation toward zero of a rational number, modelling Python's `int(x)`
applied to the floating-point values returned by `cap.get(...)`.  On a
rational in lowest terms this is the t-division of numerator by denominator,
which rounds toward zero. -/
def pyInt (q : ℚ) : ℤ := q.num.tdiv q.den

/-- Model of a `cv2.VideoCapture`: the raw `CAP_PROP_FPS` and
`CAP_PROP_FRAME_COUNT` properties and the read-at-frame-index behaviour. -/
structure Video where
  fpsRaw : ℚ
  framesRaw : ℚ
  read : ℤ → Option ℕ

/-- Decimal digit character, `'0'` through `'9'` for `d < 10`. -/
def digitChar (d : ℕ) : Char := Char.ofNat (48 + d)

/-- Decimal rendering of a natural number, modelling Python's `str(n)` /
f-string interpolation of a non-negative `int`. -/
def pyStr (n : ℕ) : String :=
  if n = 0 then "0" else String.mk (((Nat.digits 10 n).reverse).map digitChar)

/-- Deterministic screenshot file name, `f"screenshot_{minutes}m_{seconds}s.jpg"`. -/
def screenshot_filename (minutes seconds : ℕ) : String :=
  "screenshot_" ++ pyStr minutes ++ "m_" ++ pyStr seconds ++ "s.jpg"

/-- Filesystem path split into the containing directory and the last
component, so that `os.path.join`/`os.path.basename` are exact inverses. -/
structure FSPath where
  dir : String
  base : String
deriving DecidableEq

/-- Model of `os.path.join(directory, name)` for a single bare name. -/
def os_path_join (d b : String) : FSPath := ⟨d, b⟩

/-- Model of `os.path.basename`. -/
def os_path_basename (p : FSPath) : String := p.base

/-- Name of the fresh directory returned by `tempfile.mkdtemp()`; the actual
name is chosen by the OS and nothing in the program depends on it. -/
def temp_dir : String := "tmp"

/-- Captured screenshot: the request it came from, the frame index the video
was seeked to, the decoded frame, and the file path it was written to. -/
structure Screenshot where
  minutes : ℕ
  seconds : ℕ
  frameIndex : ℤ
  frame : ℕ
  path : FSPath
deriving DecidableEq

/-- Reason a request was skipped, as reported by the two `st.warning` calls. -/
inductive SkipReason where
  | exceedsDuration
  | readFailure
deriving DecidableEq

/-- Diagnostic record of one skipped request. -/
structure Skipped where
  minutes : ℕ
  seconds : ℕ
  reason : SkipReason
deriving DecidableEq

/-- Python exception escaping the call; the only one arising in the model is
`ZeroDivisionError` from `total_frames / fps` with `fps = 0`. -/
inductive PyErr where
  | zeroDivision
deriving DecidableEq

/-- Observable outcome of a call to `extract_screenshots_at_timestamps`:
the returned screenshot list (or the escaped exception), the skip warnings in
the order emitted, whether `cap.release()` ran on the path taken, and the
state of the caller's `timestamps` list after the call (the function sorts it
in place). -/
structure ExtractOutcome where
  result : Except PyErr (List Screenshot)
  skipped : List Skipped
  released : Bool
  requestsAfter : List (ℕ × ℕ)

/-- Total seconds of a `(minutes, seconds)` request. -/
def totalSeconds (m s : ℕ) : ℕ := m * 60 + s

/-- Python's `<=` on `(int, int)` tuples: lexicographic comparison.  This is
the order `timestamps.sort()` sorts by. -/
def lexLe (a b : ℕ × ℕ) : Prop := a.1 < b.1 ∨ (a.1 = b.1 ∧ a.2 ≤ b.2)

instance : DecidableRel lexLe := fun a b => by
  unfold lexLe; infer_instance

instance : IsTotal (ℕ × ℕ) lexLe :=
  ⟨by intro a b; unfold lexLe; omega⟩

instance : IsTrans (ℕ × ℕ) lexLe :=
  ⟨by intro a b c; unfold lexLe; omega⟩

/-- Model of `timestamps.sort()`: stable ascending sort in tuple order. -/
def pySort (l : List (ℕ × ℕ)) : List (ℕ × ℕ) := List.insertionSort lexLe l

/-- Duration computed by the source: `total_frames / fps` with both operands
already truncated to integers, divided with Python true division. -/
def duration (v : Video) : ℚ := (pyInt v.framesRaw : ℚ) / (pyInt v.fpsRaw : ℚ)

/-- Outcome of the loop body for one request `p`, successful branch:
`some` screenshot when `p` is within duration and the frame read succeeds. -/
def shotFor (v : Video) (fps : ℤ) (dur : ℚ) (p : ℕ × ℕ) : Option Screenshot :=
  let ts := totalSeconds p.1 p.2
  if (ts : ℚ) > dur then none
  else
    match v.read ((ts : ℤ) * fps) with
    | some fr =>
        some ⟨p.1, p.2, (ts : ℤ) * fps, fr,
          os_path_join temp_dir (screenshot_filename p.1 p.2)⟩
    | none => none

/-- Outcome of the loop body for one request `p`, warning branch:
`some` skip record when `p` exceeds the duration or the frame read fails. -/
def skipFor (v : Video) (fps : ℤ) (dur : ℚ) (p : ℕ × ℕ) : Option Skipped :=
  let ts := totalSeconds p.1 p.2
  if (ts : ℚ) > dur then some ⟨p.1, p.2, .exceedsDuration⟩
  else
    match v.read ((ts : ℤ) * fps) with
    | some _ => none
    | none => some ⟨p.1, p.2, .readFailure⟩

/-- The `for i, (minutes, seconds) in enumerate(timestamps)` loop: collects
appended screenshots and emitted skip warnings, both in processing order.
(The enumerate index `i` only feeds the progress bar and status text.) -/
def runLoop (v : Video) (fps : ℤ) (dur : ℚ) :
    List (ℕ × ℕ) → List Screenshot × List Skipped
  | [] => ([], [])
  | (m, s) :: rest =>
    let ts := totalSeconds m s
    if (ts : ℚ) > dur then
      let r := runLoop v fps dur rest
      (r.1, ⟨m, s, .exceedsDuration⟩ :: r.2)
    else
      let pos : ℤ := (ts : ℤ) * fps
      match v.read pos with
      | some fr =>
          let r := runLoop v fps dur rest
          (⟨m, s, pos, fr, os_path_join temp_dir (screenshot_filename m s)⟩ :: r.1, r.2)
      | none =>
          let r := runLoop v fps dur rest
          (r.1, ⟨m, s, .readFailure⟩ :: r.2)

/-- Embedding of `extract_screenshots_at_timestamps(video_path, timestamps)`.
Mirrors the source: read `fps` and `total_frames` (truncated to `int`),
compute `duration = total_frames / fps` (raising `ZeroDivisionError` when
`fps == 0`, before the sort and before `cap.release()`), sort the caller's
list in place, run the per-timestamp loop, release the capture, and return
the accumulated screenshot paths. -/
def extract_screenshots_at_timestamps (v : Video) (timestamps : List (ℕ × ℕ)) :
    ExtractOutcome :=
  let fps := pyInt v.fpsRaw
  let total_frames := pyInt v.framesRaw
  if fps = 0 then
    { result := .error .zeroDivision
      skipped := []
      released := false
      requestsAfter := timestamps }
  else
    let dur : ℚ := (total_frames : ℚ) / (fps : ℚ)
    let sorted := pySort timestamps
    let r := runLoop v fps dur sorted
    { result := .ok r.1
      skipped := r.2
      released := true
      requestsAfter := sorted }

/-- Screenshot list of an outcome (`[]` when the call raised). -/
def ExtractOutcome.shots (o : ExtractOutcome) : List Screenshot :=
  match o.result with
  | .ok l => l
  | .error _ => []

/-- Embedding of `create_zip_file(screenshot_paths, temp_dir)`: for each path,
in order, one archive entry named `os.path.basename` of the path.  The model
returns the list of entry names in write order. -/
def create_zip_file (screenshot_paths : List FSPath) : List String :=
  screenshot_paths.map os_path_basename

/-- Condition under which the loop skips request `p` instead of producing a
screenshot: the timestamp exceeds the duration, or the frame read fails. -/
def failsAt (v : Video) (p : ℕ × ℕ) : Prop :=
  ((totalSeconds p.1 p.2 : ℚ) > duration v) ∨
    v.read ((totalSeconds p.1 p.2 : ℤ) * pyInt v.fpsRaw) = none

/-- Reason recorded for a failing request: the duration check comes first. -/
def skipReasonFor (v : Video) (p : ℕ × ℕ) : SkipReason :=
  if (totalSeconds p.1 p.2 : ℚ) > duration v then .exceedsDuration else .readFailure

/-- Integer-arithmetic twin of `runLoop` in which the duration test
`timestamp_seconds > total_frames / fps` is replaced by the cross-multiplied
test `total_frames < timestamp_seconds * fps`.  For positive `fps` the two
loops agree (`runLoopEval_eq_runLoop` below); the twin evaluates on concrete
inputs without rational division. -/
def runLoopEval (v : Video) (fps total_frames : ℤ) :
    List (ℕ × ℕ) → List Screenshot × List Skipped
  | [] => ([], [])
  | (m, s) :: rest =>
    let ts := totalSeconds m s
    if total_frames < (ts : ℤ) * fps then
      let r := runLoopEval v fps total_frames rest
      (r.1, ⟨m, s, .exceedsDuration⟩ :: r.2)
    else
      let pos : ℤ := (ts : ℤ) * fps
      match v.read pos with
      | some fr =>
          let r := runLoopEval v fps total_frames rest
          (⟨m, s, pos, fr, os_path_join temp_dir (screenshot_filename m s)⟩ :: r.1, r.2)
      | none =>
          let r := runLoopEval v fps total_frames rest
          (r.1, ⟨m, s, .readFailure⟩ :: r.2)

/-- Integer-arithmetic twin of `extract_screenshots_at_timestamps`, equal to
it whenever the truncated fps is positive (`extract_eq_extractEval` below). -/
def extractEval (v : Video) (timestamps : List (ℕ × ℕ)) : ExtractOutcome :=
  let fps := pyInt v.fpsRaw
  let total_frames := pyInt v.framesRaw
  if fps = 0 then
    { result := .error .zeroDivision
      skipped := []
      released := false
      requestsAfter := timestamps }
  else
    let sorted := pySort timestamps
    let r := runLoopEval v fps total_frames sorted
    { result := .ok r.1
      skipped := r.2
      released := true
      requestsAfter := sorted }

/-!
Timestamp text parser.

Modelled from the spec: the timestamp text parser of spec §4.2
(`parse(text) -> sequence<TimestampRequest>`) belongs to a repository
variant that is not under `src/` — `src/streamlit_app.py` only has the
table-editor input path.  The definitions below follow the spec's words:
split the text into lines, trim each line's leading/trailing whitespace,
match the pattern `<digits>:<digits>`, clamp the seconds to at most 59,
silently drop non-matching lines, and keep the input line order.
-/

/-- Line splitting on `'\n'`, as Python's `text.split("\n")`. -/
def splitLines : List Char → List (List Char)
  | [] => [[]]
  | c :: rest =>
    if c = '\n' then [] :: splitLines rest
    else
      match splitLines rest with
      | l :: ls => (c :: l) :: ls
      | [] => [[c]]

/-- Leading/trailing-whitespace trimming of one line. -/
def trimChars (cs : List Char) : List Char :=
  ((cs.dropWhile Char.isWhitespace).reverse.dropWhile Char.isWhitespace).reverse

/-- Decimal value of a digit string, most significant first. -/
def digitsVal (cs : List Char) : ℕ :=
  cs.foldl (fun acc c => 10 * acc + (c.toNat - 48)) 0

/-- Matching of one trimmed line against the pattern `<digits>:<digits>`:
on a match, the request is `(minutes, min seconds 59)` — seconds above 59
are silently clamped; anything else yields `none`. -/
def matchTimestamp (cs : List Char) : Option (ℕ × ℕ) :=
  let d1 := cs.takeWhile Char.isDigit
  match cs.dropWhile Char.isDigit with
  | ':' :: d2 =>
    if d1 ≠ [] ∧ d2 ≠ [] ∧ d2.all Char.isDigit then
      some (digitsVal d1, min (digitsVal d2) 59)
    else none
  | _ => none

/-- Parsing of a single raw line: trim, then match. -/
def parseLine (line : List Char) : Option (ℕ × ℕ) :=
  matchTimestamp (trimChars line)

/-- Modelled from the spec: the timestamp text parser, `parse(text)`.
Non-matching lines are dropped by `filterMap`; the surviving requests keep
the input line order. -/
def parse_timestamps (text : String) : List (ℕ × ℕ) :=
  (splitLines text.data).filterMap parseLine

end VideoShot

namespace VideoShot

theorem pyInt_natCast (n : ℕ) : pyInt (n : ℚ) = n := by
  simp [pyInt, Int.tdiv_one]

theorem pyInt_floor (q : ℚ) (h : 0 ≤ q) : pyInt q = ⌊q⌋ := by
  rw [pyInt, Rat.floor_def]
  exact Int.tdiv_eq_ediv (Rat.num_nonneg.mpr h) (Int.ofNat_nonneg q.den)

theorem runLoop_fst (v : Video) (fps : ℤ) (dur : ℚ) (l : List (ℕ × ℕ)) :
    (runLoop v fps dur l).1 = l.filterMap (shotFor v fps dur) := by
  induction l with
  | nil => rfl
  | cons p rest ih =>
    obtain ⟨m, s⟩ := p
    by_cases h : ((totalSeconds m s : ℕ) : ℚ) > dur
    · simp [runLoop, shotFor, h, ih]
    · cases hr : v.read ((totalSeconds m s : ℤ) * fps) with
      | some fr => simp [runLoop, shotFor, h, hr, ih]
      | none => simp [runLoop, shotFor, h, hr, ih]

theorem runLoop_snd (v : Video) (fps : ℤ) (dur : ℚ) (l : List (ℕ × ℕ)) :
    (runLoop v fps dur l).2 = l.filterMap (skipFor v fps dur) := by
  induction l with
  | nil => rfl
  | cons p rest ih =>
    obtain ⟨m, s⟩ := p
    by_cases h : ((totalSeconds m s : ℕ) : ℚ) > dur
    · simp [runLoop, skipFor, h, ih]
    · cases hr : v.read ((totalSeconds m s : ℤ) * fps) with
      | some fr => simp [runLoop, skipFor, h, hr, ih]
      | none => simp [runLoop, skipFor, h, hr, ih]

end VideoShot

namespace VideoShot

theorem shotFor_eq_some (v : Video) (fps : ℤ) (dur : ℚ) (p : ℕ × ℕ)
    (sc : Screenshot) (h : shotFor v fps dur p = some sc) :
    sc.minutes = p.1 ∧ sc.seconds = p.2 ∧
      sc.frameIndex = (totalSeconds p.1 p.2 : ℤ) * fps ∧
      sc.path = os_path_join temp_dir (screenshot_filename p.1 p.2) ∧
      ¬ ((totalSeconds p.1 p.2 : ℕ) : ℚ) > dur ∧
      v.read ((totalSeconds p.1 p.2 : ℤ) * fps) = some sc.frame := by
  by_cases hc : ((totalSeconds p.1 p.2 : ℕ) : ℚ) > dur
  · simp [shotFor, hc] at h
  · cases hr : v.read ((totalSeconds p.1 p.2 : ℤ) * fps) with
    | some fr =>
      simp [shotFor, hc, hr] at h
      subst h
      exact ⟨rfl, rfl, rfl, rfl, hc, rfl⟩
    | none => simp [shotFor, hc, hr] at h

theorem shotFor_isSome (v : Video) (fps : ℤ) (dur : ℚ) (p : ℕ × ℕ)
    (h1 : ¬ ((totalSeconds p.1 p.2 : ℕ) : ℚ) > dur)
    (h2 : (v.read ((totalSeconds p.1 p.2 : ℤ) * fps)).isSome) :
    (shotFor v fps dur p).isSome := by
  cases hr : v.read ((totalSeconds p.1 p.2 : ℤ) * fps) with
  | some fr => simp [shotFor, h1, hr]
  | none => rw [hr] at h2; simp at h2

theorem skipFor_eq_none (v : Video) (fps : ℤ) (dur : ℚ) (p : ℕ × ℕ)
    (h1 : ¬ ((totalSeconds p.1 p.2 : ℕ) : ℚ) > dur)
    (h2 : (v.read ((totalSeconds p.1 p.2 : ℤ) * fps)).isSome) :
    skipFor v fps dur p = none := by
  cases hr : v.read ((totalSeconds p.1 p.2 : ℤ) * fps) with
  | some fr => simp [skipFor, h1, hr]
  | none => rw [hr] at h2; simp at h2

theorem shotFor_isSome_iff_skipFor_eq_none (v : Video) (fps : ℤ) (dur : ℚ)
    (p : ℕ × ℕ) : (shotFor v fps dur p).isSome ↔ skipFor v fps dur p = none := by
  by_cases hc : ((totalSeconds p.1 p.2 : ℕ) : ℚ) > dur
  · simp [shotFor, skipFor, hc]
  · cases hr : v.read ((totalSeconds p.1 p.2 : ℤ) * fps) with
    | some fr => simp [shotFor, skipFor, hc, hr]
    | none => simp [shotFor, skipFor, hc, hr]

theorem skipFor_of_failsAt (v : Video) (p : ℕ × ℕ) (h : failsAt v p) :
    skipFor v (pyInt v.fpsRaw) (duration v) p =
      some ⟨p.1, p.2, skipReasonFor v p⟩ := by
  by_cases hc : ((totalSeconds p.1 p.2 : ℕ) : ℚ) > duration v
  · simp [skipFor, skipReasonFor, hc]
  · have hr : v.read ((totalSeconds p.1 p.2 : ℤ) * pyInt v.fpsRaw) = none := by
      rcases h with h | h
      · exact absurd h hc
      · exact h
    simp [skipFor, skipReasonFor, hc, hr]

theorem shotFor_of_failsAt (v : Video) (p : ℕ × ℕ) (h : failsAt v p) :
    shotFor v (pyInt v.fpsRaw) (duration v) p = none := by
  by_cases hc : ((totalSeconds p.1 p.2 : ℕ) : ℚ) > duration v
  · simp [shotFor, hc]
  · have hr : v.read ((totalSeconds p.1 p.2 : ℤ) * pyInt v.fpsRaw) = none := by
      rcases h with h | h
      · exact absurd h hc
      · exact h
    simp [shotFor, hc, hr]

theorem skipFor_exceeds_iff (v : Video) (fps : ℤ) (dur : ℚ) (p : ℕ × ℕ)
    (m s : ℕ) :
    skipFor v fps dur p = some ⟨m, s, .exceedsDuration⟩ ↔
      p = (m, s) ∧ ((totalSeconds m s : ℕ) : ℚ) > dur := by
  constructor
  · intro h
    by_cases hc : ((totalSeconds p.1 p.2 : ℕ) : ℚ) > dur
    · simp [skipFor, hc] at h
      obtain ⟨h1, h2⟩ := h
      subst h1; subst h2
      exact ⟨rfl, hc⟩
    · cases hr : v.read ((totalSeconds p.1 p.2 : ℤ) * fps) with
      | some fr => simp [skipFor, hc, hr] at h
      | none => simp [skipFor, hc, hr] at h
  · rintro ⟨rfl, hc⟩
    simp [skipFor, hc]

theorem pySort_perm (l : List (ℕ × ℕ)) : (pySort l).Perm l :=
  List.perm_insertionSort lexLe l

theorem pySort_sorted_lex (l : List (ℕ × ℕ)) : List.Sorted lexLe (pySort l) :=
  List.sorted_insertionSort lexLe l

theorem extract_of_fps_ne_zero (v : Video) (ts : List (ℕ × ℕ))
    (h : pyInt v.fpsRaw ≠ 0) :
    extract_screenshots_at_timestamps v ts =
      { result := .ok (runLoop v (pyInt v.fpsRaw) (duration v) (pySort ts)).1
        skipped := (runLoop v (pyInt v.fpsRaw) (duration v) (pySort ts)).2
        released := true
        requestsAfter := pySort ts } := by
  simp [extract_screenshots_at_timestamps, duration, h]

theorem extract_of_fps_zero (v : Video) (ts : List (ℕ × ℕ))
    (h : pyInt v.fpsRaw = 0) :
    extract_screenshots_at_timestamps v ts =
      { result := .error .zeroDivision
        skipped := []
        released := false
        requestsAfter := ts } := by
  simp [extract_screenshots_at_timestamps, h]

theorem shots_of_fps_ne_zero (v : Video) (ts : List (ℕ × ℕ))
    (h : pyInt v.fpsRaw ≠ 0) :
    (extract_screenshots_at_timestamps v ts).shots =
      (pySort ts).filterMap (shotFor v (pyInt v.fpsRaw) (duration v)) := by
  rw [extract_of_fps_ne_zero v ts h]
  simp [ExtractOutcome.shots, runLoop_fst]

theorem skipped_of_fps_ne_zero (v : Video) (ts : List (ℕ × ℕ))
    (h : pyInt v.fpsRaw ≠ 0) :
    (extract_screenshots_at_timestamps v ts).skipped =
      (pySort ts).filterMap (skipFor v (pyInt v.fpsRaw) (duration v)) := by
  rw [extract_of_fps_ne_zero v ts h]
  simp [runLoop_snd]

end VideoShot

namespace VideoShot

theorem runLoopEval_eq_runLoop (v : Video) (fps tf : ℤ) (h : 0 < fps)
    (l : List (ℕ × ℕ)) :
    runLoop v fps ((tf : ℚ) / (fps : ℚ)) l = runLoopEval v fps tf l := by
  induction l with
  | nil => rfl
  | cons p rest ih =>
    obtain ⟨m, s⟩ := p
    have hfq : (0 : ℚ) < (fps : ℚ) := by exact_mod_cast h
    have hc : (((totalSeconds m s : ℕ) : ℚ) > (tf : ℚ) / (fps : ℚ)) ↔
        tf < (totalSeconds m s : ℤ) * fps := by
      rw [gt_iff_lt, div_lt_iff₀ hfq]
      constructor
      · intro hx; exact_mod_cast hx
      · intro hx; exact_mod_cast hx
    by_cases hts : tf < (totalSeconds m s : ℤ) * fps
    · simp [runLoop, runLoopEval, hc.mpr hts, hts, ih]
    · have : ¬ (((totalSeconds m s : ℕ) : ℚ) > (tf : ℚ) / (fps : ℚ)) :=
        fun hx => hts (hc.mp hx)
      cases hr : v.read ((totalSeconds m s : ℤ) * fps) with
      | some fr => simp [runLoop, runLoopEval, this, hts, hr, ih]
      | none => simp [runLoop, runLoopEval, this, hts, hr, ih]

theorem extract_eq_extractEval (v : Video) (ts : List (ℕ × ℕ))
    (h : 0 < pyInt v.fpsRaw) :
    extract_screenshots_at_timestamps v ts = extractEval v ts := by
  have hne : pyInt v.fpsRaw ≠ 0 := ne_of_gt h
  rw [extract_of_fps_ne_zero v ts hne]
  simp [extractEval, hne, duration,
    runLoopEval_eq_runLoop v (pyInt v.fpsRaw) (pyInt v.framesRaw) h]

theorem length_filterMap_of_forall_isSome {α β : Type} (f : α → Option β) :
    ∀ l : List α, (∀ a ∈ l, (f a).isSome) → (l.filterMap f).length = l.length
  | [], _ => rfl
  | a :: l, h => by
    obtain ⟨b, hb⟩ := Option.isSome_iff_exists.mp (h a (List.mem_cons_self a l))
    rw [List.filterMap_cons, hb]
    simp only [List.length_cons]
    rw [length_filterMap_of_forall_isSome f l
      (fun x hx => h x (List.mem_cons_of_mem a hx))]

theorem filterMap_eq_nil_of_forall_none {α β : Type} (f : α → Option β) :
    ∀ l : List α, (∀ a ∈ l, f a = none) → l.filterMap f = []
  | [], _ => rfl
  | a :: l, h => by
    rw [List.filterMap_cons, h a (List.mem_cons_self a l)]
    exact filterMap_eq_nil_of_forall_none f l
      (fun x hx => h x (List.mem_cons_of_mem a hx))

theorem length_filterMap_add_length_filterMap {α β γ : Type}
    (f : α → Option β) (g : α → Option γ) :
    ∀ l : List α, (∀ a ∈ l, (f a).isSome ↔ g a = none) →
      (l.filterMap f).length + (l.filterMap g).length = l.length
  | [], _ => rfl
  | a :: l, h => by
    have ih := length_filterMap_add_length_filterMap f g l
      (fun x hx => h x (List.mem_cons_of_mem a hx))
    have ha := h a (List.mem_cons_self a l)
    rw [List.filterMap_cons, List.filterMap_cons]
    cases hfa : f a with
    | some b =>
      have : g a = none := ha.mp (by rw [hfa]; rfl)
      rw [this]
      simp only [List.length_cons]
      omega
    | none =>
      cases hga : g a with
      | some c =>
        simp only [List.length_cons]
        omega
      | none =>
        exfalso
        have : (f a).isSome := ha.mpr hga
        rw [hfa] at this
        simp at this

theorem map_filterMap_sublist {α β : Type} (f : α → Option β) (k : β → α)
    (hk : ∀ a b, f a = some b → k b = a) :
    ∀ l : List α, (((l.filterMap f).map k)).Sublist l
  | [] => List.Sublist.refl []
  | a :: l => by
    rw [List.filterMap_cons]
    cases hfa : f a with
    | some b =>
      rw [List.map_cons, hk a b hfa]
      exact (map_filterMap_sublist f k hk l).cons₂ a
    | none =>
      exact (map_filterMap_sublist f k hk l).cons a

theorem count_le_count_map_filterMap {α β γ : Type} [BEq α] [LawfulBEq α]
    [BEq γ] [LawfulBEq γ] (f : α → Option β) (g : β → γ) (a : α) (b : β)
    (hfa : f a = some b) :
    ∀ l : List α, l.count a ≤ ((l.filterMap f).map g).count (g b)
  | [] => le_refl 0
  | x :: l => by
    have ih := count_le_count_map_filterMap f g a b hfa l
    cases hbeq : x == a with
    | true =>
      have hxa : x = a := eq_of_beq hbeq
      have hfx : f x = some b := by rw [hxa]; exact hfa
      have h1 : List.count a (x :: l) = List.count a l + 1 := by
        rw [List.count_cons, hbeq]
        simp
      have h2 : List.count (g b) (g b :: (l.filterMap f).map g) =
          List.count (g b) ((l.filterMap f).map g) + 1 := by
        rw [List.count_cons]
        simp
      simp only [List.filterMap_cons, hfx, List.map_cons]
      omega
    | false =>
      have h1 : List.count a (x :: l) = List.count a l := by
        rw [List.count_cons, hbeq]
        simp
      cases hfx : f x with
      | some y =>
        simp only [List.filterMap_cons, hfx, List.map_cons]
        have h2 : List.count (g b) ((l.filterMap f).map g) ≤
            List.count (g b) (g y :: (l.filterMap f).map g) := by
          rw [List.count_cons]
          exact Nat.le_add_right _ _
        omega
      | none =>
        simp only [List.filterMap_cons, hfx]
        omega

theorem perm_count_eq {α : Type} [BEq α] {l1 l2 : List α} (h : l1.Perm l2)
    (a : α) : l1.count a = l2.count a := by
  induction h with
  | nil => rfl
  | cons x _ ih => rw [List.count_cons, List.count_cons, ih]
  | swap x y l =>
    cases hxa : x == a <;> cases hya : y == a <;>
      simp [List.count_cons, hxa, hya]
  | trans _ _ ih1 ih2 => rw [ih1, ih2]

theorem count_le_count_map_beq {α β : Type} [BEq α] [LawfulBEq α] [BEq β]
    [LawfulBEq β] (l : List α) (f : α → β) (x : α) :
    l.count x ≤ (l.map f).count (f x) := by
  induction l with
  | nil => exact le_refl 0
  | cons y l ih =>
    rw [List.map_cons, List.count_cons, List.count_cons]
    cases hbeq : y == x with
    | true =>
      have hfy : f y = f x := by rw [eq_of_beq hbeq]
      rw [hfy]
      simp only [beq_self_eq_true, if_true]
      omega
    | false =>
      simp only [Bool.false_eq_true, if_false]
      have h2 : (0 : ℕ) ≤ if (f y == f x) = true then 1 else 0 := Nat.zero_le _
      omega

theorem os_path_basename_join (d b : String) :
    os_path_basename (os_path_join d b) = b := rfl

end VideoShot

namespace VideoShot

theorem digitChar_ne_slash (d : ℕ) (h : d < 10) : digitChar d ≠ '/' := by
  interval_cases d <;> decide

theorem pyStr_no_slash (n : ℕ) : ∀ c ∈ (pyStr n).data, c ≠ '/' := by
  intro c hc
  by_cases h : n = 0
  · subst h
    simp only [pyStr, if_pos] at hc
    simp at hc
    subst hc
    decide
  · simp only [pyStr, if_neg h] at hc
    obtain ⟨d, hd, rfl⟩ := List.mem_map.mp hc
    exact digitChar_ne_slash d
      (Nat.digits_lt_base (by norm_num) (List.mem_reverse.mp hd))

theorem screenshot_filename_no_slash (m s : ℕ) :
    ∀ c ∈ (screenshot_filename m s).data, c ≠ '/' := by
  have hlit1 : ∀ c ∈ "screenshot_".data, c ≠ '/' := by decide
  have hlit2 : ∀ c ∈ "m_".data, c ≠ '/' := by decide
  have hlit3 : ∀ c ∈ "s.jpg".data, c ≠ '/' := by decide
  intro c hc
  simp only [screenshot_filename, String.data_append, List.mem_append] at hc
  rcases hc with ((((hc | hc) | hc) | hc) | hc)
  · exact hlit1 c hc
  · exact pyStr_no_slash m c hc
  · exact hlit2 c hc
  · exact pyStr_no_slash s c hc
  · exact hlit3 c hc

theorem shots_path_deterministic (v : Video) (ts : List (ℕ × ℕ)) :
    ∀ sc ∈ (extract_screenshots_at_timestamps v ts).shots,
      sc.path = os_path_join temp_dir (screenshot_filename sc.minutes sc.seconds) := by
  intro sc hsc
  by_cases hfps : pyInt v.fpsRaw = 0
  · rw [extract_of_fps_zero v ts hfps] at hsc
    simp [ExtractOutcome.shots] at hsc
  · rw [shots_of_fps_ne_zero v ts hfps] at hsc
    obtain ⟨q, _, hfq⟩ := List.mem_filterMap.mp hsc
    obtain ⟨e1, e2, _, e4, _, _⟩ := shotFor_eq_some v _ _ q sc hfq
    rw [e4, e1, e2]

theorem takeWhile_append_eq (p : Char → Bool) (l1 : List Char) (x : Char)
    (l2 : List Char) (h1 : ∀ c ∈ l1, p c = true) (hx : p x = false) :
    (l1 ++ x :: l2).takeWhile p = l1 ∧ (l1 ++ x :: l2).dropWhile p = x :: l2 := by
  induction l1 with
  | nil =>
    simp only [List.nil_append]
    constructor
    · simp [List.takeWhile_cons, hx]
    · simp [List.dropWhile_cons, hx]
  | cons c l1 ih =>
    have hc : p c = true := h1 c (List.mem_cons_self c l1)
    obtain ⟨iht, ihd⟩ := ih (fun a ha => h1 a (List.mem_cons_of_mem c ha))
    constructor
    · rw [List.cons_append, List.takeWhile_cons, hc]
      simp only [if_true, iht]
    · rw [List.cons_append, List.dropWhile_cons, hc]
      simp only [if_true, ihd]

theorem matchTimestamp_digits (d1 d2 : List Char) (h1 : d1 ≠ []) (h2 : d2 ≠ [])
    (hd1 : ∀ c ∈ d1, c.isDigit = true) (hd2 : ∀ c ∈ d2, c.isDigit = true) :
    matchTimestamp (d1 ++ ':' :: d2) =
      some (digitsVal d1, min (digitsVal d2) 59) := by
  have hcolon : (':' : Char).isDigit = false := by decide
  obtain ⟨ht, hd⟩ := takeWhile_append_eq Char.isDigit d1 ':' d2 hd1 hcolon
  unfold matchTimestamp
  rw [ht, hd]
  have hall : d2.all Char.isDigit = true := List.all_eq_true.mpr hd2
  simp [h1, h2, hall]

theorem matchTimestamp_eq_some (cs : List Char) (r : ℕ × ℕ)
    (h : matchTimestamp cs = some r) :
    ∃ d1 d2, cs = d1 ++ ':' :: d2 ∧ d1 ≠ [] ∧ d2 ≠ [] ∧
      (∀ c ∈ d1, c.isDigit = true) ∧ (∀ c ∈ d2, c.isDigit = true) ∧
      r = (digitsVal d1, min (digitsVal d2) 59) := by
  unfold matchTimestamp at h
  split at h
  next d2 heq =>
    by_cases hcond : cs.takeWhile Char.isDigit ≠ [] ∧ d2 ≠ [] ∧
        d2.all Char.isDigit
    · rw [if_pos hcond] at h
      refine ⟨cs.takeWhile Char.isDigit, d2, ?_, hcond.1, hcond.2.1, ?_, ?_,
        (Option.some_inj.mp h).symm⟩
      · conv_lhs => rw [← List.takeWhile_append_dropWhile (p := Char.isDigit) (l := cs)]
        rw [heq]
      · exact fun c hc => List.mem_takeWhile_imp hc
      · exact fun c hc => List.all_eq_true.mp hcond.2.2 c hc
    · rw [if_neg hcond] at h
      simp at h
  next =>
    simp at h

end VideoShot

namespace VideoShot

/-- C1: for every non-empty request list in which every timestamp
(minutes*60 + seconds) is at most the video duration, the extraction returns
exactly one screenshot per request and an empty skipped sequence, assuming
every frame read succeeds (and a well-formed video, `fps ≠ 0`). -/
theorem extract_one_screenshot_per_valid_request (v : Video)
    (ts : List (ℕ × ℕ)) ( _hne : ts ≠ []) (hfps : pyInt v.fpsRaw ≠ 0)
    (hdur : ∀ p ∈ ts, ((totalSeconds p.1 p.2 : ℕ) : ℚ) ≤ duration v)
    (hread : ∀ i, (v.read i).isSome) :
    ((extract_screenshots_at_timestamps v ts).shots).length = ts.length ∧
      (extract_screenshots_at_timestamps v ts).skipped = [] := by
  rw [shots_of_fps_ne_zero v ts hfps, skipped_of_fps_ne_zero v ts hfps]
  constructor
  · rw [length_filterMap_of_forall_isSome _ _ (fun p hp =>
      shotFor_isSome v _ _ p
        (not_lt.mpr (hdur p ((pySort_perm ts).mem_iff.mp hp))) (hread _))]
    exact (pySort_perm ts).length_eq
  · exact filterMap_eq_nil_of_forall_none _ _ (fun p hp =>
      skipFor_eq_none v _ _ p
        (not_lt.mpr (hdur p ((pySort_perm ts).mem_iff.mp hp))) (hread _))

/-- Witness for C1 at a concrete video (30 fps, 300 frames, all reads succeed)
and the request list [(0,1),(0,2)]. -/
theorem extract_one_screenshot_per_valid_request_witness :
    ([((0 : ℕ), (1 : ℕ)), (0, 2)] ≠ []) ∧
      pyInt (((30 : ℕ) : ℚ)) ≠ 0 ∧
      (∀ p ∈ [((0 : ℕ), (1 : ℕ)), (0, 2)],
        ((totalSeconds p.1 p.2 : ℕ) : ℚ) ≤
          duration ⟨((30 : ℕ) : ℚ), ((300 : ℕ) : ℚ), fun _ => some 7⟩) ∧
      ((extract_screenshots_at_timestamps
          ⟨((30 : ℕ) : ℚ), ((300 : ℕ) : ℚ), fun _ => some 7⟩
          [((0 : ℕ), (1 : ℕ)), (0, 2)]).shots).length =
          [((0 : ℕ), (1 : ℕ)), (0, 2)].length ∧
        (extract_screenshots_at_timestamps
          ⟨((30 : ℕ) : ℚ), ((300 : ℕ) : ℚ), fun _ => some 7⟩
          [((0 : ℕ), (1 : ℕ)), (0, 2)]).skipped = [] := by
  have hdur : ∀ p ∈ [((0 : ℕ), (1 : ℕ)), (0, 2)],
      ((totalSeconds p.1 p.2 : ℕ) : ℚ) ≤
        duration ⟨((30 : ℕ) : ℚ), ((300 : ℕ) : ℚ), fun _ => some 7⟩ := by
    intro p hp
    fin_cases hp <;>
      · rw [duration]
        rw [show pyInt (((30 : ℕ) : ℚ)) = ((30 : ℕ) : ℤ) from pyInt_natCast 30,
          show pyInt (((300 : ℕ) : ℚ)) = ((300 : ℕ) : ℤ) from pyInt_natCast 300]
        norm_num [totalSeconds]
  exact ⟨by decide, by decide, hdur,
    extract_one_screenshot_per_valid_request _ _ (by decide) (by decide) hdur
      (fun i => rfl)⟩

/-- C2: every per-timestamp failure (timestamp beyond the duration, or a
failed frame read) is recorded as a skip entry with its reason, never
produces a screenshot for that request, and never aborts the handling of the
other requests (every request is accounted for as a screenshot or a skip). -/
theorem per_timestamp_failures_recorded_not_fatal (v : Video)
    (ts : List (ℕ × ℕ)) (hfps : pyInt v.fpsRaw ≠ 0) :
    (∀ p ∈ ts, failsAt v p →
      ((⟨p.1, p.2, skipReasonFor v p⟩ : Skipped) ∈
          (extract_screenshots_at_timestamps v ts).skipped ∧
        ∀ sc ∈ (extract_screenshots_at_timestamps v ts).shots,
          ¬ (sc.minutes = p.1 ∧ sc.seconds = p.2))) ∧
    ((extract_screenshots_at_timestamps v ts).shots).length +
        ((extract_screenshots_at_timestamps v ts).skipped).length = ts.length := by
  rw [shots_of_fps_ne_zero v ts hfps, skipped_of_fps_ne_zero v ts hfps]
  constructor
  · intro p hp hfail
    constructor
    · exact List.mem_filterMap.mpr
        ⟨p, (pySort_perm ts).mem_iff.mpr hp, skipFor_of_failsAt v p hfail⟩
    · rintro sc hsc ⟨hm, hs⟩
      obtain ⟨q, _, hfq⟩ := List.mem_filterMap.mp hsc
      obtain ⟨e1, e2, _, _, _, _⟩ := shotFor_eq_some v _ _ q sc hfq
      have hqp : q = p := by
        obtain ⟨q1, q2⟩ := q
        obtain ⟨p1, p2⟩ := p
        simp only [Prod.mk.injEq]
        exact ⟨e1.symm.trans hm, e2.symm.trans hs⟩
      rw [hqp, shotFor_of_failsAt v p hfail] at hfq
      exact Option.noConfusion hfq
  · rw [length_filterMap_add_length_filterMap _ _ (pySort ts)
      (fun p _ => shotFor_isSome_iff_skipFor_eq_none v _ _ p)]
    exact (pySort_perm ts).length_eq

/-- Witness for C2 at a concrete video (2 fps, 10 frames, every read fails)
and one request beyond the 5-second duration plus one unreadable request. -/
theorem per_timestamp_failures_recorded_not_fatal_witness :
    pyInt (((2 : ℕ) : ℚ)) ≠ 0 ∧
      ((∀ p ∈ [((9 : ℕ), (0 : ℕ)), (0, 1)], failsAt
          ⟨((2 : ℕ) : ℚ), ((10 : ℕ) : ℚ), fun _ => none⟩ p →
        ((⟨p.1, p.2, skipReasonFor
              ⟨((2 : ℕ) : ℚ), ((10 : ℕ) : ℚ), fun _ => none⟩ p⟩ : Skipped) ∈
            (extract_screenshots_at_timestamps
              ⟨((2 : ℕ) : ℚ), ((10 : ℕ) : ℚ), fun _ => none⟩
              [((9 : ℕ), (0 : ℕ)), (0, 1)]).skipped ∧
          ∀ sc ∈ (extract_screenshots_at_timestamps
              ⟨((2 : ℕ) : ℚ), ((10 : ℕ) : ℚ), fun _ => none⟩
              [((9 : ℕ), (0 : ℕ)), (0, 1)]).shots,
            ¬ (sc.minutes = p.1 ∧ sc.seconds = p.2))) ∧
      ((extract_screenshots_at_timestamps
          ⟨((2 : ℕ) : ℚ), ((10 : ℕ) : ℚ), fun _ => none⟩
          [((9 : ℕ), (0 : ℕ)), (0, 1)]).shots).length +
        ((extract_screenshots_at_timestamps
          ⟨((2 : ℕ) : ℚ), ((10 : ℕ) : ℚ), fun _ => none⟩
          [((9 : ℕ), (0 : ℕ)), (0, 1)]).skipped).length =
        [((9 : ℕ), (0 : ℕ)), (0, 1)].length) :=
  ⟨by decide, per_timestamp_failures_recorded_not_fatal _ _ (by decide)⟩

end VideoShot

namespace VideoShot

/-- C3 counterexample: on the exceptional exit path (a capture whose
truncated fps is 0, which is what `cv2.VideoCapture` reports when the video
fails to open, so `duration = total_frames / fps` raises `ZeroDivisionError`
before the loop), `cap.release()` is never executed: the claim that the
handle is released on every exit path is false. -/
theorem release_not_run_on_error_path :
    (extract_screenshots_at_timestamps ⟨0, ((240 : ℕ) : ℚ), fun _ => some 0⟩
        [(0, 0)]).released = false ∧
      (extract_screenshots_at_timestamps ⟨0, ((240 : ℕ) : ℚ), fun _ => some 0⟩
        [(0, 0)]).result = Except.error PyErr.zeroDivision :=
  ⟨rfl, rfl⟩

/-- C3 amended: the video handle is released exactly on the non-exceptional
exit paths — whenever the duration computation does not raise, i.e. whenever
the truncated fps is nonzero (this covers success and all-requests-skipped);
it is not released when the `ZeroDivisionError` escapes. -/
theorem release_iff_no_exception (v : Video) (ts : List (ℕ × ℕ)) :
    (extract_screenshots_at_timestamps v ts).released = true ↔
      pyInt v.fpsRaw ≠ 0 := by
  by_cases h : pyInt v.fpsRaw = 0
  · rw [extract_of_fps_zero v ts h]
    simp [h]
  · rw [extract_of_fps_ne_zero v ts h]
    simp [h]

/-- Witness for the amended C3 at a concrete opened video. -/
theorem release_iff_no_exception_witness :
    (extract_screenshots_at_timestamps
        ⟨((30 : ℕ) : ℚ), ((300 : ℕ) : ℚ), fun _ => some 0⟩ [(0, 5)]).released =
        true ↔ pyInt (((30 : ℕ) : ℚ)) ≠ 0 :=
  release_iff_no_exception ⟨((30 : ℕ) : ℚ), ((300 : ℕ) : ℚ), fun _ => some 0⟩
    [(0, 5)]

/-- C5 counterexample: a video that fails to open (OpenCV reports fps 0 and
frame count 0, every read fails) is surfaced to the caller as the arithmetic
`ZeroDivisionError` raised by `duration = total_frames / fps` — precisely the
"unrelated exception from fps = 0" that the claim rules out, not a dedicated
open-failure error. -/
theorem open_failure_surfaces_as_zero_division :
    (extract_screenshots_at_timestamps ⟨0, 0, fun _ => none⟩ [(1, 0)]).result =
      Except.error PyErr.zeroDivision :=
  rfl

/-- C5 amended: failing to open the video (truncated fps = 0) is the only
fatal outcome of the extraction call, but it is surfaced as the
`ZeroDivisionError` of the duration computation — an arithmetic error the
caller only sees through its catch-all handler — not as a dedicated
open-failure error with its own message. -/
theorem fatal_error_characterization (v : Video) (ts : List (ℕ × ℕ)) :
    (extract_screenshots_at_timestamps v ts).result =
      if pyInt v.fpsRaw = 0 then Except.error PyErr.zeroDivision
      else Except.ok ((extract_screenshots_at_timestamps v ts).shots) := by
  by_cases h : pyInt v.fpsRaw = 0
  · rw [if_pos h, extract_of_fps_zero v ts h]
  · rw [if_neg h, extract_of_fps_ne_zero v ts h]
    rfl

/-- Witness for the amended C5 at a concrete opened video. -/
theorem fatal_error_characterization_witness :
    (extract_screenshots_at_timestamps
        ⟨((25 : ℕ) : ℚ), ((50 : ℕ) : ℚ), fun _ => some 1⟩ [(0, 1)]).result =
      if pyInt (((25 : ℕ) : ℚ)) = 0 then Except.error PyErr.zeroDivision
      else Except.ok ((extract_screenshots_at_timestamps
        ⟨((25 : ℕ) : ℚ), ((50 : ℕ) : ℚ), fun _ => some 1⟩ [(0, 1)]).shots) :=
  fatal_error_characterization ⟨((25 : ℕ) : ℚ), ((50 : ℕ) : ℚ), fun _ => some 1⟩
    [(0, 1)]

/-- C8 counterexample: `timestamps.sort()` sorts the caller's list in place,
so the caller's requests sequence is changed by the call: after extracting
with the list [(3,0),(1,0)] the caller's list reads [(1,0),(3,0)]. -/
theorem extract_mutates_callers_requests :
    (extract_screenshots_at_timestamps
        ⟨((1 : ℕ) : ℚ), ((1000 : ℕ) : ℚ), fun _ => some 0⟩
        [(3, 0), (1, 0)]).requestsAfter = [(1, 0), (3, 0)] ∧
      [((1 : ℕ), (0 : ℕ)), (3, 0)] ≠ [(3, 0), (1, 0)] := by
  constructor
  · decide
  · decide

/-- C8 amended: the only mutation of shared state is the in-place sort of
the caller's requests list: after a non-raising call the list is the
ascending (Python tuple order, i.e. lexicographic) sorted permutation of the
original. -/
theorem extract_sorts_requests_in_place (v : Video) (ts : List (ℕ × ℕ))
    (h : pyInt v.fpsRaw ≠ 0) :
    (extract_screenshots_at_timestamps v ts).requestsAfter = pySort ts ∧
      ((extract_screenshots_at_timestamps v ts).requestsAfter).Perm ts ∧
      List.Sorted lexLe ((extract_screenshots_at_timestamps v ts).requestsAfter) := by
  rw [extract_of_fps_ne_zero v ts h]
  exact ⟨rfl, pySort_perm ts, pySort_sorted_lex ts⟩

/-- Witness for the amended C8 at a concrete video and unsorted requests. -/
theorem extract_sorts_requests_in_place_witness :
    pyInt (((2 : ℕ) : ℚ)) ≠ 0 ∧
      ((extract_screenshots_at_timestamps
          ⟨((2 : ℕ) : ℚ), ((600 : ℕ) : ℚ), fun _ => some 3⟩
          [(5, 5), (0, 0)]).requestsAfter = pySort [(5, 5), (0, 0)] ∧
        ((extract_screenshots_at_timestamps
          ⟨((2 : ℕ) : ℚ), ((600 : ℕ) : ℚ), fun _ => some 3⟩
          [(5, 5), (0, 0)]).requestsAfter).Perm [(5, 5), (0, 0)] ∧
        List.Sorted lexLe ((extract_screenshots_at_timestamps
          ⟨((2 : ℕ) : ℚ), ((600 : ℕ) : ℚ), fun _ => some 3⟩
          [(5, 5), (0, 0)]).requestsAfter)) :=
  ⟨by decide, extract_sorts_requests_in_place _ _ (by decide)⟩

end VideoShot

namespace VideoShot

/-- C4 counterexample: the source sorts `(minutes, seconds)` pairs in tuple
order, and duplicates are kept, so the output is in general not strictly
ascending by total seconds: with requests [(1,0),(0,120),(0,120)] (duration
1000 s, all reads succeed) the screenshots carry total seconds
[120, 120, 60], which is neither strict nor ascending by total seconds. -/
theorem shots_not_strictly_ascending :
    ¬ List.Sorted (fun a b => a < b)
      (((extract_screenshots_at_timestamps
          ⟨((1 : ℕ) : ℚ), ((1000 : ℕ) : ℚ), fun _ => some 0⟩
          [(1, 0), (0, 120), (0, 120)]).shots).map
        (fun sc => totalSeconds sc.minutes sc.seconds)) := by
  rw [extract_eq_extractEval _ _ (by decide)]
  decide

/-- C4 amended: the screenshots are ordered ascending (non-strictly: repeated
requests repeat a timestamp) by total seconds, provided every request's
seconds component is at most 59 — the bound the UI and the parser enforce;
for raw pairs with seconds ≥ 60 the tuple sort can disagree with
total-seconds order. -/
theorem shots_ascending_of_seconds_le_59 (v : Video) (ts : List (ℕ × ℕ))
    (hsec : ∀ p ∈ ts, p.2 ≤ 59) :
    List.Sorted (fun a b => a ≤ b)
      (((extract_screenshots_at_timestamps v ts).shots).map
        (fun sc => totalSeconds sc.minutes sc.seconds)) := by
  by_cases hfps : pyInt v.fpsRaw = 0
  · rw [extract_of_fps_zero v ts hfps]
    simp [ExtractOutcome.shots]
  · rw [shots_of_fps_ne_zero v ts hfps]
    have hkey : ∀ p sc,
        shotFor v (pyInt v.fpsRaw) (duration v) p = some sc →
          (fun sc => (sc.minutes, sc.seconds)) sc = p := by
      intro p sc h
      obtain ⟨e1, e2, _, _, _, _⟩ := shotFor_eq_some v _ _ p sc h
      obtain ⟨p1, p2⟩ := p
      simp only [Prod.mk.injEq]
      exact ⟨e1, e2⟩
    have hsub := map_filterMap_sublist
      (shotFor v (pyInt v.fpsRaw) (duration v))
      (fun sc => (sc.minutes, sc.seconds)) hkey (pySort ts)
    have hpair : List.Pairwise lexLe
        (((pySort ts).filterMap
            (shotFor v (pyInt v.fpsRaw) (duration v))).map
          (fun sc => (sc.minutes, sc.seconds))) :=
      List.Pairwise.sublist hsub (pySort_sorted_lex ts)
    rw [List.pairwise_map] at hpair
    have final : List.Pairwise
        (fun a b => totalSeconds a.minutes a.seconds ≤
          totalSeconds b.minutes b.seconds)
        ((pySort ts).filterMap (shotFor v (pyInt v.fpsRaw) (duration v))) := by
      refine List.Pairwise.imp_of_mem ?_ hpair
      intro a b ha _ hab
      have hs2 : a.seconds ≤ 59 := by
        obtain ⟨q, hq, hfq⟩ := List.mem_filterMap.mp ha
        have hk := hkey q a hfq
        have hqts : q ∈ ts := (pySort_perm ts).mem_iff.mp hq
        have := hsec q hqts
        obtain ⟨q1, q2⟩ := q
        simp only [Prod.mk.injEq] at hk
        omega
      unfold lexLe at hab
      unfold totalSeconds
      omega
    exact List.pairwise_map.mpr final

/-- Witness for the amended C4 at a concrete video with out-of-order
requests whose seconds are all at most 59. -/
theorem shots_ascending_of_seconds_le_59_witness :
    (∀ p ∈ [((2 : ℕ), (0 : ℕ)), (1, 30)], p.2 ≤ 59) ∧
      List.Sorted (fun a b => a ≤ b)
        (((extract_screenshots_at_timestamps
            ⟨((30 : ℕ) : ℚ), ((9000 : ℕ) : ℚ), fun _ => some 5⟩
            [(2, 0), (1, 30)]).shots).map
          (fun sc => totalSeconds sc.minutes sc.seconds)) :=
  ⟨by decide, shots_ascending_of_seconds_le_59 _ _ (by decide)⟩

/-- C6: the duration used by the exceeds-duration check is
`total_frames / fps` with the raw fps truncated to an integer (`pyInt`)
before the division — a request is skipped as exceeding the duration exactly
when its total seconds are greater than that quotient — and every produced
screenshot was seeked to `frame_index = floor(target_seconds * fps)` with
that same truncated fps. -/
theorem duration_check_and_seek_formula (v : Video) (ts : List (ℕ × ℕ))
    (hfps : pyInt v.fpsRaw ≠ 0) :
    (∀ m s : ℕ,
      (⟨m, s, SkipReason.exceedsDuration⟩ : Skipped) ∈
          (extract_screenshots_at_timestamps v ts).skipped ↔
        ((m, s) ∈ ts ∧
          ((totalSeconds m s : ℕ) : ℚ) >
            (pyInt v.framesRaw : ℚ) / (pyInt v.fpsRaw : ℚ))) ∧
    (∀ sc ∈ (extract_screenshots_at_timestamps v ts).shots,
      sc.frameIndex =
        ⌊((totalSeconds sc.minutes sc.seconds : ℕ) : ℚ) *
          (pyInt v.fpsRaw : ℚ)⌋) := by
  constructor
  · intro m s
    rw [skipped_of_fps_ne_zero v ts hfps, List.mem_filterMap]
    constructor
    · rintro ⟨q, hq, hfq⟩
      obtain ⟨rfl, hgt⟩ := (skipFor_exceeds_iff v _ _ q m s).mp hfq
      exact ⟨(pySort_perm ts).mem_iff.mp hq, hgt⟩
    · rintro ⟨hmem, hgt⟩
      exact ⟨(m, s), (pySort_perm ts).mem_iff.mpr hmem,
        (skipFor_exceeds_iff v _ _ (m, s) m s).mpr ⟨rfl, hgt⟩⟩
  · intro sc hsc
    rw [shots_of_fps_ne_zero v ts hfps] at hsc
    obtain ⟨q, _, hfq⟩ := List.mem_filterMap.mp hsc
    obtain ⟨e1, e2, e3, _, _, _⟩ := shotFor_eq_some v _ _ q sc hfq
    rw [e1, e2, e3]
    rw [show ((totalSeconds q.1 q.2 : ℕ) : ℚ) * ((pyInt v.fpsRaw : ℤ) : ℚ) =
        (((totalSeconds q.1 q.2 : ℤ) * pyInt v.fpsRaw : ℤ) : ℚ) by push_cast; ring]
    rw [Int.floor_intCast]

/-- Witness for C6 at a concrete video (3 fps, 30 frames: duration 10 s)
with one request inside and one beyond the duration. -/
theorem duration_check_and_seek_formula_witness :
    pyInt (((3 : ℕ) : ℚ)) ≠ 0 ∧
      ((∀ m s : ℕ,
        (⟨m, s, SkipReason.exceedsDuration⟩ : Skipped) ∈
            (extract_screenshots_at_timestamps
              ⟨((3 : ℕ) : ℚ), ((30 : ℕ) : ℚ), fun _ => some 2⟩
              [(0, 4), (7, 0)]).skipped ↔
          ((m, s) ∈ [((0 : ℕ), (4 : ℕ)), (7, 0)] ∧
            ((totalSeconds m s : ℕ) : ℚ) >
              (pyInt (((30 : ℕ) : ℚ)) : ℚ) / (pyInt (((3 : ℕ) : ℚ)) : ℚ))) ∧
      (∀ sc ∈ (extract_screenshots_at_timestamps
            ⟨((3 : ℕ) : ℚ), ((30 : ℕ) : ℚ), fun _ => some 2⟩
            [(0, 4), (7, 0)]).shots,
        sc.frameIndex =
          ⌊((totalSeconds sc.minutes sc.seconds : ℕ) : ℚ) *
            (pyInt (((3 : ℕ) : ℚ)) : ℚ)⌋)) :=
  ⟨by decide, duration_check_and_seek_formula _ _ (by decide)⟩

end VideoShot

namespace VideoShot

/-- C7: the archive built from the extraction's screenshot paths has one
entry per path, in the same order, each named by the bare deterministic
screenshot name — no directory prefix and no path separator in any entry
name — and the set of entry names equals the set of the produced
screenshots' names. -/
theorem zip_entries_bare_names_in_order (v : Video) (ts : List (ℕ × ℕ)) :
    create_zip_file (((extract_screenshots_at_timestamps v ts).shots).map
        (fun sc => sc.path)) =
      ((extract_screenshots_at_timestamps v ts).shots).map
        (fun sc => screenshot_filename sc.minutes sc.seconds) ∧
    (∀ n ∈ create_zip_file
        (((extract_screenshots_at_timestamps v ts).shots).map
          (fun sc => sc.path)),
      ∀ c ∈ n.data, c ≠ '/') ∧
    (create_zip_file (((extract_screenshots_at_timestamps v ts).shots).map
        (fun sc => sc.path))).toFinset =
      (((extract_screenshots_at_timestamps v ts).shots).map
        (fun sc => screenshot_filename sc.minutes sc.seconds)).toFinset := by
  have h1 : create_zip_file
      (((extract_screenshots_at_timestamps v ts).shots).map
        (fun sc => sc.path)) =
      ((extract_screenshots_at_timestamps v ts).shots).map
        (fun sc => screenshot_filename sc.minutes sc.seconds) := by
    unfold create_zip_file
    rw [List.map_map]
    apply List.map_congr_left
    intro sc hsc
    show os_path_basename sc.path = screenshot_filename sc.minutes sc.seconds
    rw [shots_path_deterministic v ts sc hsc]
    rfl
  refine ⟨h1, ?_, by rw [h1]⟩
  rw [h1]
  intro n hn
  obtain ⟨sc, _, rfl⟩ := List.mem_map.mp hn
  exact screenshot_filename_no_slash sc.minutes sc.seconds

/-- C9: the timestamp text parser maps each line consisting of digits, a
colon and digits to one request whose seconds are silently clamped to 59;
only such lines produce requests (everything else is silently ignored); the
clamp examples of the spec hold, and requests come out in input line order. -/
theorem parser_clamps_and_ignores :
    (∀ d1 d2 : List Char, d1 ≠ [] → d2 ≠ [] →
      (∀ c ∈ d1, c.isDigit = true) → (∀ c ∈ d2, c.isDigit = true) →
      matchTimestamp (d1 ++ ':' :: d2) =
        some (digitsVal d1, min (digitsVal d2) 59)) ∧
    (∀ cs : List Char, ∀ r : ℕ × ℕ, matchTimestamp cs = some r →
      ∃ d1 d2, cs = d1 ++ ':' :: d2 ∧ d1 ≠ [] ∧ d2 ≠ [] ∧
        (∀ c ∈ d1, c.isDigit = true) ∧ (∀ c ∈ d2, c.isDigit = true) ∧
        r = (digitsVal d1, min (digitsVal d2) 59)) ∧
    parse_timestamps "5:99" = [(5, 59)] ∧
    parse_timestamps "hello\n1:30\n\n2:00" = [(1, 30), (2, 0)] ∧
    parse_timestamps "3:00\n1:00\n2:30" = [(3, 0), (1, 0), (2, 30)] ∧
    (∀ text : String, parse_timestamps text =
      (splitLines text.data).filterMap parseLine) :=
  ⟨matchTimestamp_digits, matchTimestamp_eq_some, by decide, by decide,
    by decide, fun _ => rfl⟩

/-- Witness for C9: the general digits-colon-digits clause applied to the
concrete decomposition of "5:99". -/
theorem parser_clamps_and_ignores_witness :
    matchTimestamp (['5'] ++ ':' :: ['9', '9']) =
      some (digitsVal ['5'], min (digitsVal ['9', '9']) 59) :=
  parser_clamps_and_ignores.1 ['5'] ['9', '9'] (by decide) (by decide)
    (by decide) (by decide)

/-- C10: a request whose `(minutes, seconds)` pair occurs at least twice,
lies within the duration, and reads successfully, contributes one screenshot
per occurrence, each with the identical deterministic path (so the file on
disk is overwritten and the returned sequence repeats the path), and the
archive is written with that entry name repeated. -/
theorem duplicate_requests_duplicate_names (v : Video) (ts : List (ℕ × ℕ))
    (m s : ℕ) (hfps : 0 < pyInt v.fpsRaw)
    (hdur : ((totalSeconds m s : ℕ) : ℚ) ≤ duration v)
    (hread : (v.read ((totalSeconds m s : ℤ) * pyInt v.fpsRaw)).isSome)
    (hcount : 2 ≤ ts.count (m, s)) :
    2 ≤ (((extract_screenshots_at_timestamps v ts).shots).map
        (fun sc => sc.path)).count
        (os_path_join temp_dir (screenshot_filename m s)) ∧
    2 ≤ (create_zip_file
        (((extract_screenshots_at_timestamps v ts).shots).map
          (fun sc => sc.path))).count (screenshot_filename m s) := by
  have hfne : pyInt v.fpsRaw ≠ 0 := ne_of_gt hfps
  obtain ⟨fr, hfr⟩ := Option.isSome_iff_exists.mp hread
  have hnot : ¬ ((totalSeconds m s : ℕ) : ℚ) > duration v := not_lt.mpr hdur
  have hshot : shotFor v (pyInt v.fpsRaw) (duration v) (m, s) =
      some ⟨m, s, (totalSeconds m s : ℤ) * pyInt v.fpsRaw, fr,
        os_path_join temp_dir (screenshot_filename m s)⟩ := by
    simp [shotFor, hnot, hfr]
  have hc : ts.count (m, s) = (pySort ts).count (m, s) :=
    (perm_count_eq (pySort_perm ts) (m, s)).symm
  have hmain := count_le_count_map_filterMap
    (shotFor v (pyInt v.fpsRaw) (duration v)) (fun sc => sc.path) (m, s) _
    hshot (pySort ts)
  dsimp only at hmain
  have h1 : 2 ≤ (((pySort ts).filterMap
      (shotFor v (pyInt v.fpsRaw) (duration v))).map
        (fun sc => sc.path)).count
      (os_path_join temp_dir (screenshot_filename m s)) := by
    omega
  constructor
  · rw [shots_of_fps_ne_zero v ts hfne]
    exact h1
  · rw [shots_of_fps_ne_zero v ts hfne]
    have h2 := count_le_count_map_beq
      (((pySort ts).filterMap
          (shotFor v (pyInt v.fpsRaw) (duration v))).map
        (fun sc => sc.path)) os_path_basename
      (os_path_join temp_dir (screenshot_filename m s))
    rw [os_path_basename_join] at h2
    unfold create_zip_file
    omega

/-- Witness for C10 at a concrete video (10 fps, 100 frames) and the request
(0,2) repeated twice. -/
theorem duplicate_requests_duplicate_names_witness :
    0 < pyInt (((10 : ℕ) : ℚ)) ∧
      2 ≤ ([((0 : ℕ), (2 : ℕ)), (0, 2)].count (0, 2)) ∧
      2 ≤ (((extract_screenshots_at_timestamps
          ⟨((10 : ℕ) : ℚ), ((100 : ℕ) : ℚ), fun _ => some 4⟩
          [(0, 2), (0, 2)]).shots).map (fun sc => sc.path)).count
          (os_path_join temp_dir (screenshot_filename 0 2)) ∧
      2 ≤ (create_zip_file
          (((extract_screenshots_at_timestamps
            ⟨((10 : ℕ) : ℚ), ((100 : ℕ) : ℚ), fun _ => some 4⟩
            [(0, 2), (0, 2)]).shots).map
            (fun sc => sc.path))).count (screenshot_filename 0 2) := by
  have hdur : ((totalSeconds 0 2 : ℕ) : ℚ) ≤
      duration ⟨((10 : ℕ) : ℚ), ((100 : ℕ) : ℚ), fun _ => some 4⟩ := by
    rw [duration,
      show pyInt (((10 : ℕ) : ℚ)) = ((10 : ℕ) : ℤ) from pyInt_natCast 10,
      show pyInt (((100 : ℕ) : ℚ)) = ((100 : ℕ) : ℤ) from pyInt_natCast 100]
    norm_num [totalSeconds]
  obtain ⟨ha, hb⟩ := duplicate_requests_duplicate_names
    ⟨((10 : ℕ) : ℚ), ((100 : ℕ) : ℚ), fun _ => some 4⟩
    [(0, 2), (0, 2)] 0 2 (by decide) hdur rfl (by decide)
  exact ⟨by decide, by decide, ha, hb⟩

end VideoShot
